import Mathlib

/-!
# Verification of the Hybrid-WAF threat-classification pipeline

A shallow embedding, over `List Char` text, of the core of the
Hybrid-WAF-Implementation repository:

* `WAF/rule_engine.py` — text normalization (`_unquote`, `_clean`), the
  `SIGNATURES` regex table and `scan_request`;
* `WAF/classifier.py`  — `ThreatClassifier._clean_text` and
  `ThreatClassifier.classify_request`;
* `WAF/request.py`     — the `Request` entity, `DBController.save`,
  `DBController.read_request`.

Python strings are modelled as `List Char`; Python dicts as
insertion-ordered association lists; Python exceptions as `Except`;
the two opaque scikit-learn scorers as function parameters.  All
definitions are executable so that theorems on concrete requests can be
settled by `decide`.
-/

namespace WAF

/-! ## Character helpers

The scanned/normalized texts in this code base are ASCII HTTP data, so the
character classes are modelled on their ASCII semantics (Unicode whitespace
categories and Unicode word characters of Python are not modelled). -/

/-- The whitespace set of Python's `str.split()` / `str.strip()` (ASCII part):
space, tab, newline, carriage return, vertical tab, form feed — written on
code points to ease arithmetic reasoning. -/
def isPyWs (c : Char) : Bool :=
  c.toNat = 32 || c.toNat = 9 || c.toNat = 10 || c.toNat = 13 || c.toNat = 11 || c.toNat = 12

/-- Hexadecimal digit (`0`–`9`, `a`–`f`, `A`–`F`), as accepted by
`urllib.parse.unquote` in `%hh` escapes; written on code points. -/
def isHexDigit (c : Char) : Bool :=
  (48 ≤ c.toNat && c.toNat ≤ 57) || (97 ≤ c.toNat && c.toNat ≤ 102) ||
    (65 ≤ c.toNat && c.toNat ≤ 70)

/-- Numeric value of a hex digit. -/
def hexVal (c : Char) : Nat :=
  if 48 ≤ c.toNat && c.toNat ≤ 57 then c.toNat - 48
  else if 97 ≤ c.toNat && c.toNat ≤ 102 then c.toNat - 97 + 10
  else c.toNat - 65 + 10

/-- Python's `str.lower` restricted to ASCII: map `A`–`Z` to `a`–`z`,
leave every other character unchanged. -/
def pyLower (c : Char) : Char :=
  if 65 ≤ c.toNat && c.toNat ≤ 90 then Char.ofNat (c.toNat + 32) else c

/-- Word character for the regex classes `\w` and `\b` (ASCII part):
letters (`a`–`z`, `A`–`Z`), digits, underscore; written on code points. -/
def isWordChar (c : Char) : Bool :=
  (97 ≤ c.toNat && c.toNat ≤ 122) || (65 ≤ c.toNat && c.toNat ≤ 90) ||
    (48 ≤ c.toNat && c.toNat ≤ 57) || c.toNat = 95

/-! ## `urllib.parse.unquote_plus`

`unquote_plus` first replaces every `+` by a space and then decodes `%hh`
escapes left to right; an invalid escape (`%` not followed by two hex
digits) is kept verbatim.  The replacement characters produced by a decode
are not themselves re-examined.  We decode each escaped byte directly to
the character of its value; Python instead collects consecutive escaped
bytes and UTF-8-decodes them with replacement — identical on ASCII bytes,
which is all this code base exercises. -/

def unquote_plus : List Char → List Char
  | [] => []
  | c :: rest =>
    if c = '+' then ' ' :: unquote_plus rest
    else if c = '%' then
      match rest with
      | a :: b :: rest2 =>
        if isHexDigit a && isHexDigit b then
          Char.ofNat (hexVal a * 16 + hexVal b) :: unquote_plus rest2
        else '%' :: unquote_plus (a :: b :: rest2)
      | [a] => '%' :: unquote_plus [a]
      | [] => ['%']
    else c :: unquote_plus rest

/-- `rule_engine._unquote` / the decode loop of `_clean_text`: apply
`unquote_plus` repeatedly until a fixpoint, at most `fuel` (= 5) times. -/
def unquoteLoop : Nat → List Char → List Char
  | 0, s => s
  | fuel + 1, s =>
    let d := unquote_plus s
    if d = s then s else unquoteLoop fuel d

/-- Characterization of the fixpoints of `unquote_plus`: no `+`, and no
`%` followed by two hex digits. -/
def fixOK : List Char → Bool
  | [] => true
  | c :: rest =>
    if c = '+' then false
    else if c = '%' then
      match rest with
      | a :: b :: t =>
        if isHexDigit a && isHexDigit b then false else fixOK (a :: b :: t)
      | [a] => fixOK [a]
      | [] => true
    else fixOK rest

/-! ## `' '.join(t.strip().split())` — whitespace collapsing

`str.split()` without arguments splits on runs of whitespace and discards
leading and trailing whitespace, so the preceding `strip()` in the source
is a no-op; the composite collapses every whitespace run to one space and
strips the ends. -/

/-- Words of a string in the sense of Python's `str.split()`: maximal
non-whitespace runs.  `acc` holds the (reversed) word currently being read. -/
def wordsAux : List Char → List Char → List (List Char)
  | [], acc => if acc.isEmpty then [] else [acc.reverse]
  | c :: rest, acc =>
    if isPyWs c then
      if acc.isEmpty then wordsAux rest [] else acc.reverse :: wordsAux rest []
    else wordsAux rest (c :: acc)

def wordsOf (s : List Char) : List (List Char) := wordsAux s []

/-- `' '.join(ws)`. -/
def joinWords : List (List Char) → List Char
  | [] => []
  | [w] => w
  | w :: ws => w ++ ' ' :: joinWords ws

/-- `' '.join(s.strip().split())`. -/
def collapseWs (s : List Char) : List Char := joinWords (wordsOf s)

/-- `rule_engine._clean` and `ThreatClassifier._clean_text` (the two are
the same algorithm): decode percent escapes to a fixpoint (at most 5
rounds), collapse whitespace, lower-case. -/
def cleanText (s : List Char) : List Char :=
  (collapseWs (unquoteLoop 5 s)).map pyLower

/-- `_clean` on an optional field (`None` maps to the empty string). -/
def cleanOpt : Option (List Char) → List Char
  | none => []
  | some s => cleanText s

/-- Python truthiness of an optional string: `None` and `''` are falsy. -/
def truthy : Option (List Char) → Bool
  | none => false
  | some s => !s.isEmpty

/-! ## Regular expressions

A small regex AST covering exactly the constructs used in
`rule_engine.SIGNATURES`: literals, character classes, `.`, alternation,
concatenation, `*`, `+` and the zero-width word boundary `\b`.  Every
pattern is applied (via `re.Pattern.search`) to `_clean`-normalized text,
which is lower-cased, so the `re.I` flag of the source is reflected by
writing the literals in lower case.  `search` is used by the source only
as a boolean, so the model decides match existence; greediness and
leftmost-first disambiguation cannot change existence. -/

inductive Re where
  | ch (c : Char)
  | cls (p : Char → Bool)
  | dot
  | seq (a b : Re)
  | alt (a b : Re)
  | star (r : Re)
  | plus (r : Re)
  | wordB
deriving Inhabited

namespace Re

/-- Structural size of a pattern, used to bound the matcher's fuel. -/
def size : Re → Nat
  | ch _ => 1
  | cls _ => 1
  | dot => 1
  | seq a b => size a + size b + 1
  | alt a b => size a + size b + 1
  | star r => size r + 1
  | plus r => size r + 1
  | wordB => 1

/-- Word-character test of an optional character; the edges of the string
count as non-word positions for `\b`. -/
def isWordOpt : Option Char → Bool
  | none => false
  | some c => isWordChar c

/-- CPS matcher: `mmatch fuel r prev s k` decides whether some prefix of
`s` matches `r`, where `prev` is the character immediately before `s` (for
`\b`), and `k` is the continuation receiving the new previous character
and the rest of the input.  All starred/plussed sub-patterns of
`SIGNATURES` consume at least one character per iteration, so any fuel of
at least `size r * (length s + 1)` decides the match exactly. -/
def mmatch : Nat → Re → Option Char → List Char → (Option Char → List Char → Bool) → Bool
  | 0, _, _, _, _ => false
  | fuel + 1, r, prev, s, k =>
    match r with
    | ch c =>
      match s with
      | x :: rest => x = c && k (some x) rest
      | [] => false
    | cls p =>
      match s with
      | x :: rest => p x && k (some x) rest
      | [] => false
    | dot =>
      match s with
      | x :: rest => x ≠ '\n' && k (some x) rest
      | [] => false
    | seq a b => mmatch fuel a prev s (fun p' s' => mmatch fuel b p' s' k)
    | alt a b => mmatch fuel a prev s k || mmatch fuel b prev s k
    | star r => k prev s || mmatch fuel r prev s (fun p' s' => mmatch fuel (star r) p' s' k)
    | plus r => mmatch fuel r prev s (fun p' s' => mmatch fuel (star r) p' s' k)
    | wordB => (isWordOpt prev != isWordOpt s.head?) && k prev s

/-- Try a match starting at every position of `s`; `prev` is the character
before the current position. -/
def searchAux (r : Re) (fuel : Nat) : Option Char → List Char → Bool
  | prev, s =>
    mmatch fuel r prev s (fun _ _ => true) ||
      match s with
      | [] => false
      | c :: rest => searchAux r fuel (some c) rest

/-- `re.Pattern.search(text) is not None`. -/
def search (r : Re) (s : List Char) : Bool :=
  searchAux r ((size r + 1) * (s.length + 1) + 1) none s

end Re

open Re in
/-- Literal string pattern. -/
def rstr : List Char → Re
  | [] => Re.star (Re.cls fun _ => false)   -- matches only the empty string
  | [c] => Re.ch c
  | c :: rest => Re.seq (Re.ch c) (rstr rest)

namespace Re

/-- The class `\s` (ASCII semantics, matching `isPyWs`). -/
def wsCls : Re := cls isPyWs
/-- The class `\d` (ASCII digits). -/
def digitCls : Re := cls fun c => '0' ≤ c && c ≤ '9'
/-- The class `\w`. -/
def wCls : Re := cls isWordChar

/-- `a|b|c …` (right-nested alternation). -/
def alts : List Re → Re
  | [] => star (cls fun _ => false)
  | [r] => r
  | r :: rest => alt r (alts rest)

/-- Concatenation of a list of patterns. -/
def seqs : List Re → Re
  | [] => star (cls fun _ => false)
  | [r] => r
  | r :: rest => seq r (seqs rest)

end Re

open Re in
/-- The `SIGNATURES` table of `rule_engine.py`, in its Python insertion
order `sqli`, `xss`, `cmdi`, `path-traversal`.  Each entry is commented
with the original pattern. -/
def SIGNATURES : List (List Char × List Re) :=
  [ ("sqli".toList,
      [ -- (?:\bunion\b\s+select|\bselect\b.+\bfrom\b)
        alt (seqs [wordB, rstr "union".toList, wordB, plus wsCls, rstr "select".toList])
            (seqs [wordB, rstr "select".toList, wordB, plus dot, wordB, rstr "from".toList, wordB]),
        -- (?:\bdrop\b\s+table|\binsert\b\s+into|\bupdate\b\s+\w+\s+set)
        alts [ seqs [wordB, rstr "drop".toList, wordB, plus wsCls, rstr "table".toList],
               seqs [wordB, rstr "insert".toList, wordB, plus wsCls, rstr "into".toList],
               seqs [wordB, rstr "update".toList, wordB, plus wsCls, plus wCls, plus wsCls,
                     rstr "set".toList] ],
        -- (?:'\s*or\s*'\d+'='\d+'|'\s*or\s*1=1|\bor\b\s+1=1)
        alts [ seqs [ch '\'', star wsCls, rstr "or".toList, star wsCls, ch '\'', plus digitCls,
                     ch '\'', ch '=', ch '\'', plus digitCls, ch '\''],
               seqs [ch '\'', star wsCls, rstr "or".toList, star wsCls, rstr "1=1".toList],
               seqs [wordB, rstr "or".toList, wordB, plus wsCls, rstr "1=1".toList] ],
        -- (?:;\s*--|--\s*)
        alt (seqs [ch ';', star wsCls, rstr "--".toList]) (seqs [rstr "--".toList, star wsCls]),
        -- \b(benchmark|sleep|information_schema)\b
        seqs [wordB, alts [rstr "benchmark".toList, rstr "sleep".toList,
                           rstr "information_schema".toList], wordB] ]),
    ("xss".toList,
      [ -- <\s*script
        seqs [ch '<', star wsCls, rstr "script".toList],
        -- <\s*img\b[^>]*\bonerror\b
        seqs [ch '<', star wsCls, rstr "img".toList, wordB, star (cls fun c => c ≠ '>'),
              wordB, rstr "onerror".toList, wordB],
        -- javascript:\s*
        seqs [rstr "javascript:".toList, star wsCls],
        -- onload\s*=
        seqs [rstr "onload".toList, star wsCls, ch '='],
        -- alert\s*\(
        seqs [rstr "alert".toList, star wsCls, ch '('] ]),
    ("cmdi".toList,
      [ -- (?:;|&&|\|\||\|)\s*\w+
        seqs [alts [ch ';', rstr "&&".toList, rstr "||".toList, ch '|'], star wsCls, plus wCls],
        -- `[^`]+`  (backtick pair)
        seqs [ch (Char.ofNat 96), plus (cls fun c => c ≠ Char.ofNat 96), ch (Char.ofNat 96)],
        -- \b(cat|ls|rm|wget|curl|whoami|powershell|cmd\.exe|sh)\b
        seqs [wordB, alts [rstr "cat".toList, rstr "ls".toList, rstr "rm".toList,
                           rstr "wget".toList, rstr "curl".toList, rstr "whoami".toList,
                           rstr "powershell".toList, rstr "cmd.exe".toList, rstr "sh".toList],
              wordB] ]),
    ("path-traversal".toList,
      [ -- \.\.\s*/
        seqs [ch '.', ch '.', star wsCls, ch '/'],
        -- \.\.\\
        seqs [ch '.', ch '.', ch '\\'],
        -- (?:/|\\)etc(?:/|\\)passwd
        seqs [alt (ch '/') (ch '\\'), rstr "etc".toList, alt (ch '/') (ch '\\'),
              rstr "passwd".toList],
        -- web-inf|boot\.ini
        alt (rstr "web-inf".toList) (rstr "boot.ini".toList) ]) ]

/-! ## Python dicts as insertion-ordered association lists -/

/-- `d.get(k)` / `d[k]`. -/
def alookup (k : List Char) : List (List Char × α) → Option α
  | [] => none
  | (k', v) :: rest => if k' = k then some v else alookup k rest

/-- `d[k] = v`: overwrite in place if the key exists (keeping its
position, as Python dicts do), else append. -/
def ainsert (k : List Char) (v : α) : List (List Char × α) → List (List Char × α)
  | [] => [(k, v)]
  | (k', v') :: rest => if k' = k then (k', v) :: rest else (k', v') :: ainsert k v rest

/-- The `.values()` view. -/
def avalues (m : List (List Char × α)) : List α := m.map (·.2)

/-! ## `urllib.parse.parse_qs`

`parse_qs(qs)` with default arguments: split on `&`; skip empty fields,
fields with no `=`, and fields with an empty value (`keep_blank_values`
is false); `unquote_plus` each name and value once; group values by name
in encounter order.  It raises on no string input. -/

/-- `s.split(sep)` (all pieces, including empty ones). -/
def splitOn (sep : Char) : List Char → List (List Char)
  | [] => [[]]
  | c :: rest =>
    if c = sep then [] :: splitOn sep rest
    else match splitOn sep rest with
         | [] => [[c]]          -- unreachable: splitOn never returns []
         | p :: ps => (c :: p) :: ps

/-- `s.split(sep, 1)`: split at the first occurrence only; `none` when the
separator does not occur. -/
def splitOnce (sep : Char) : List Char → Option (List Char × List Char)
  | [] => none
  | c :: rest =>
    if c = sep then some ([], rest)
    else match splitOnce sep rest with
         | none => none
         | some (l, r) => some (c :: l, r)

/-- `urllib.parse.parse_qsl(qs)` with default arguments. -/
def parse_qsl (qs : List Char) : List (List Char × List Char) :=
  (splitOn '&' qs).foldr
    (fun field acc =>
      if field.isEmpty then acc
      else match splitOnce '=' field with
           | none => acc
           | some (n, v) =>
             if v.isEmpty then acc else (unquote_plus n, unquote_plus v) :: acc)
    []

/-- Append `v` to the value list of `k` (keeping the key's position), or
append a new `(k, [v])` group: the grouping step of `parse_qs`. -/
def qsGroupInsert (k : List Char) (v : List Char) :
    List (List Char × List (List Char)) → List (List Char × List (List Char))
  | [] => [(k, [v])]
  | (k', vs) :: rest =>
    if k' = k then (k', vs ++ [v]) :: rest else (k', vs) :: qsGroupInsert k v rest

/-- `urllib.parse.parse_qs(qs)` with default arguments. -/
def parse_qs (qs : List Char) : List (List Char × List (List Char)) :=
  (parse_qsl qs).foldl (fun m p => qsGroupInsert p.1 p.2 m) []

/-! ## `json.loads`

A model of Python's `json` values and of `json.loads`.  Numbers are kept
as their source lexeme (`str()` of a parsed number below therefore returns
the lexeme; Python would print the canonical `int`/`float` form, which
coincides for the canonical integer lexemes this development evaluates).
`NaN`/`Infinity` extensions and the control-character strictness of the
decoder are not modelled.  Duplicate object keys keep the first position
and the last value, as Python dicts built by sequential assignment do. -/

inductive JVal where
  | jstr (s : List Char)
  | jnum (lexeme : List Char)
  | jbool (b : Bool)
  | jnull
  | jarr (elems : List JVal)
  | jobj (fields : List (List Char × JVal))

namespace Json

/-- JSON insignificant whitespace. -/
def isJWs (c : Char) : Bool := c = ' ' || c = '\t' || c = '\n' || c = '\x0d'

def skipJWs (s : List Char) : List Char := s.dropWhile isJWs

/-- Parse the remainder of a JSON string (the opening quote already
consumed), handling escapes; returns content and rest. -/
def jpStr : List Char → Option (List Char × List Char)
  | [] => none
  | '"' :: rest => some ([], rest)
  | '\\' :: e :: rest =>
    if e = 'u' then
      match rest with
      | a :: b :: c :: d :: rest2 =>
        if isHexDigit a && isHexDigit b && isHexDigit c && isHexDigit d then
          match jpStr rest2 with
          | none => none
          | some (content, r) =>
            some (Char.ofNat (((hexVal a * 16 + hexVal b) * 16 + hexVal c) * 16 + hexVal d)
                    :: content, r)
        else none
      | _ => none
    else
      match
        (if e = '"' then some '"' else if e = '\\' then some '\\'
         else if e = '/' then some '/' else if e = 'b' then some '\x08'
         else if e = 'f' then some '\x0c' else if e = 'n' then some '\n'
         else if e = 'r' then some '\x0d' else if e = 't' then some '\t' else none) with
      | none => none
      | some c =>
        match jpStr rest with
        | none => none
        | some (content, r) => some (c :: content, r)
  | c :: rest =>
    match jpStr rest with
    | none => none
    | some (content, r) => some (c :: content, r)

def isDigit (c : Char) : Bool := '0' ≤ c && c ≤ '9'

/-- Parse a JSON number lexeme: `-?(0|[1-9][0-9]*)(\.[0-9]+)?([eE][+-]?[0-9]+)?`. -/
def jpNum (s : List Char) : Option (List Char × List Char) :=
  let (sign, s1) := match s with
                    | '-' :: r => (['-'], r)
                    | _ => ([], s)
  match s1 with
  | [] => none
  | c :: _ =>
    if ¬ isDigit c then none
    else if c = '0' && (s1.drop 1).head?.any isDigit then none
    else
      let intPart := s1.takeWhile isDigit
      let s2 := s1.dropWhile isDigit
      let (frac, s3) :=
        match s2 with
        | '.' :: r =>
          if r.head?.any isDigit then ('.' :: r.takeWhile isDigit, r.dropWhile isDigit)
          else ([], s2)
        | _ => ([], s2)
      if frac.isEmpty && s2.head? = some '.' then none
      else
        let (expPart, s4) :=
          match s3 with
          | e :: r =>
            if e = 'e' || e = 'E' then
              let (esign, r2) := match r with
                                 | '+' :: r' => (['+'], r')
                                 | '-' :: r' => (['-'], r')
                                 | _ => ([], r)
              if r2.head?.any isDigit then
                (e :: esign ++ r2.takeWhile isDigit, r2.dropWhile isDigit)
              else ([], s3)
            else ([], s3)
          | _ => ([], s3)
        some (sign ++ intPart ++ frac ++ expPart, s4)

/-- Insert a parsed object member: first position, last value. -/
def jObjInsert (k : List Char) (v : JVal) :
    List (List Char × JVal) → List (List Char × JVal)
  | [] => [(k, v)]
  | (k', v') :: rest => if k' = k then (k', v) :: rest else (k', v') :: jObjInsert k v rest

/-- Members of an object after the first `key : value` has been consumed:
`, key : value`* then `}`.  `pv` parses one JSON value (it is the
value-parser at one smaller fuel). -/
def jpObjRest (pv : List Char → Option (JVal × List Char)) :
    Nat → List Char → List (List Char × JVal) → Option (List (List Char × JVal) × List Char)
  | 0, _, _ => none
  | f + 1, s, acc =>
    match skipJWs s with
    | '}' :: rest => some (acc, rest)
    | ',' :: rest =>
      match skipJWs rest with
      | '"' :: rest2 =>
        match jpStr rest2 with
        | none => none
        | some (key, rest3) =>
          match skipJWs rest3 with
          | ':' :: rest4 =>
            match pv (skipJWs rest4) with
            | none => none
            | some (v, rest5) => jpObjRest pv f rest5 (jObjInsert key v acc)
          | _ => none
      | _ => none
    | _ => none

/-- Elements of an array after the first element has been consumed. -/
def jpArrRest (pv : List Char → Option (JVal × List Char)) :
    Nat → List Char → List JVal → Option (List JVal × List Char)
  | 0, _, _ => none
  | f + 1, s, acc =>
    match skipJWs s with
    | ']' :: rest => some (acc.reverse, rest)
    | ',' :: rest =>
      match pv (skipJWs rest) with
      | none => none
      | some (v, rest2) => jpArrRest pv f rest2 (v :: acc)
    | _ => none

/-- Parse one JSON value from `s` (no leading whitespace). -/
def jpVal : Nat → List Char → Option (JVal × List Char)
  | 0, _ => none
  | fuel + 1, s =>
    match s with
    | '"' :: rest =>
      match jpStr rest with
      | none => none
      | some (content, r) => some (.jstr content, r)
    | '{' :: rest =>
      (match skipJWs rest with
       | '}' :: rest2 => some (.jobj [], rest2)
       | '"' :: rest2 =>
         match jpStr rest2 with
         | none => none
         | some (key, rest3) =>
           match skipJWs rest3 with
           | ':' :: rest4 =>
             match jpVal fuel (skipJWs rest4) with
             | none => none
             | some (v, rest5) =>
               match jpObjRest (jpVal fuel) (rest5.length + 1) rest5 (jObjInsert key v []) with
               | none => none
               | some (fields, rest6) => some (.jobj fields, rest6)
           | _ => none
       | _ => none)
    | '[' :: rest =>
      (match skipJWs rest with
       | ']' :: rest2 => some (.jarr [], rest2)
       | _ =>
         match jpVal fuel (skipJWs rest) with
         | none => none
         | some (v, rest2) =>
           match jpArrRest (jpVal fuel) (rest2.length + 1) rest2 [v] with
           | none => none
           | some (elems, rest3) => some (.jarr elems, rest3))
    | 't' :: 'r' :: 'u' :: 'e' :: rest => some (.jbool true, rest)
    | 'f' :: 'a' :: 'l' :: 's' :: 'e' :: rest => some (.jbool false, rest)
    | 'n' :: 'u' :: 'l' :: 'l' :: rest => some (.jnull, rest)
    | _ =>
      match jpNum s with
      | none => none
      | some (lexeme, rest) => some (.jnum lexeme, rest)

end Json

/-- `json.loads(s)`: parse one document, allowing surrounding whitespace;
`none` models a raised `JSONDecodeError`. -/
def jsonLoads (s : List Char) : Option JVal :=
  match Json.jpVal (s.length + 1) (Json.skipJWs s) with
  | none => none
  | some (v, rest) => if (Json.skipJWs rest).isEmpty then some v else none

/-- `', '.join(...)`. -/
def joinComma : List (List Char) → List Char
  | [] => []
  | [x] => x
  | x :: xs => x ++ ',' :: ' ' :: joinComma xs

/-- Python `repr` of a JSON-derived value (as used inside `str` of a
container): strings in single quotes, `True`/`False`/`None` keywords.
(The quote-switching and escaping rules of `repr` on strings that contain
quotes or special characters are not modelled; the tampering logic only
ever takes the length of these reprs, and only the plain cases are
evaluated here.)  The `fuel` argument only drives the recursion through
the nested `JVal` type; every call site passes a bound no smaller than the
nesting depth (values produced by `jsonLoads s` nest at most `s.length`
deep), so the fuel-exhaustion result is never reached. -/
def pyRepr : Nat → JVal → List Char
  | _, .jstr s => '\'' :: s ++ ['\'']
  | _, .jnum l => l
  | _, .jbool true => "True".toList
  | _, .jbool false => "False".toList
  | _, .jnull => "None".toList
  | 0, _ => []
  | fuel + 1, .jarr elems => '[' :: joinComma (elems.map (pyRepr fuel)) ++ [']']
  | fuel + 1, .jobj fields =>
    Char.ofNat 123 ::
      joinComma (fields.map fun p => pyRepr fuel (.jstr p.1) ++ ':' :: ' ' :: pyRepr fuel p.2) ++
      [Char.ofNat 125]

/-- Python `str()` of a JSON-derived value (`str` of a `str` is itself;
every other value prints as its `repr`). -/
def pyStr (fuel : Nat) : JVal → List Char
  | .jstr s => s
  | v => pyRepr fuel v

/-- Python `len()` of a JSON-derived value: defined for strings, lists and
dicts; raises `TypeError` on numbers, booleans and `None`. -/
def pyLen : JVal → Except Unit Nat
  | .jstr s => .ok s.length
  | .jarr elems => .ok elems.length
  | .jobj fields => .ok fields.length
  | _ => .error ()

/-! ## The `Request` entity (`request.py`) -/

/-- `Request`: one observed HTTP transaction.  All attributes default to
`None` (`none` / empty dict) until populated. -/
structure Request where
  id : Option Nat := none
  timestamp : Option Nat := none
  origin : Option (List Char) := none
  host : Option (List Char) := none
  request : Option (List Char) := none
  body : Option (List Char) := none
  method : Option (List Char) := none
  headers : List (List Char × List Char) := []
  threats : List (List Char × List Char) := []
deriving DecidableEq

/-- The threat dictionary type: label → location. -/
abbrev Threats := List (List Char × List Char)

/-! ## `rule_engine.scan_request` -/

/-- The `(text, location)` pairs scanned for signatures: cleaned request
line, cleaned body, then the cleaned values of the `Cookie`, `User_Agent`,
`Accept_Encoding`, `Accept_Language` headers (skipping falsy fields);
header locations have `_` replaced by a space. -/
def scanTexts (req : Request) : List (List Char × List Char) :=
  (if truthy req.request then [(cleanOpt req.request, "Request".toList)] else []) ++
  (if truthy req.body then [(cleanOpt req.body, "Body".toList)] else []) ++
  ([("Cookie", "Cookie"), ("User_Agent", "User Agent"),
    ("Accept_Encoding", "Accept Encoding"),
    ("Accept_Language", "Accept Language")].foldr
    (fun h acc =>
      match alookup h.1.toList req.headers with
      | some v => if v.isEmpty then acc else (cleanText v, h.2.toList) :: acc
      | none => acc)
    [])

/-- The nested signature-matching loop: for each `(text, location)` in
order, for each category not yet recorded, record `category ↦ location`
if any of its patterns matches the text. -/
def sigScan (toScan : List (List Char × List Char)) : Threats :=
  toScan.foldl
    (fun th tl =>
      SIGNATURES.foldl
        (fun th cat =>
          if (alookup cat.1 th).isSome then th
          else if cat.2.any (fun p => p.search tl.1) then ainsert cat.1 tl.2 th
          else th)
        th)
    []

/-- `parse_qs(_clean(req.request or ''))` — the query parameters of the
tampering check.  (`parse_qs` on a string cannot raise; the source's
`try/except` around it never fires.) -/
def queryParamsOf (req : Request) : List (List Char × List (List Char)) :=
  parse_qs (cleanOpt req.request)

/-- The body parameters of `scan_request`'s tampering check: URL-decoded
form parsing of the cleaned body first; if that is empty, `json.loads` of
the RAW body, keeping `[str(v)]` for each top-level value of a JSON
object.  A parse failure, or a JSON document that is not an object
(whose `.items()` raises inside the `try`), leaves the set empty. -/
def bodyParamsRule (body : Option (List Char)) : List (List Char × List (List Char)) :=
  if truthy body then
    let b := body.getD []
    let m := parse_qs (cleanText b)
    if m.isEmpty then
      match jsonLoads b with
      | some (.jobj fields) => fields.map fun p => (p.1, [pyStr (b.length + 1) p.2])
      | _ => []
    else m
  else []

/-- `rule_engine.scan_request`: signature matching over the scanned
fields, then the parameter-tampering check — if any parameter value is
longer than 100 characters, record `parameter-tampering` at `Body` if
body-derived parameters exist, else at `Request`. -/
def scan_request (req : Request) : Threats :=
  let threats := sigScan (scanTexts req)
  let query_params := queryParamsOf req
  let body_params := bodyParamsRule req.body
  if (avalues query_params ++ avalues body_params).any
       (fun vlist => vlist.any fun v => 100 < v.length) then
    ainsert "parameter-tampering".toList
      (if body_params.isEmpty then "Request".toList else "Body".toList) threats
  else threats

/-! ## `ThreatClassifier.classify_request`

The two scikit-learn models are opaque scoring functions; they are
modelled as optional function parameters (`None` = failed to load) that
may themselves fail (`.error`, modelling a raised exception inside
`predict`, which the source catches).  The result is the final threat
dictionary together with the number of calls made to each scorer, so that
"the ML phase is skipped" is observable.  A raised `TypeError` /
`AttributeError` in the (unguarded) length-feature extraction is modelled
by `Except.error`. -/

inductive PyErr where
  | typeError
  | attributeError
deriving DecidableEq

/-- Text scorer (`self.clf.predict`): normalized snippets in, labels out. -/
abbrev TextClf := List (List Char) → Except Unit (List (List Char))

/-- Tampering scorer (`self.pt_clf.predict`): singleton length features
in, labels out. -/
abbrev PtClf := List (List Nat) → Except Unit (List (List Char))

/-- The `(cleaned text, location)` feature pairs of the ML text phase:
request line, body, `Cookie`, `User_Agent`, `Accept_Encoding`,
`Accept_Language`, skipping invalid (falsy) fields. -/
def textParams (req : Request) : List (List Char × List Char) :=
  (if truthy req.request then [(cleanOpt req.request, "Request".toList)] else []) ++
  (if truthy req.body then [(cleanOpt req.body, "Body".toList)] else []) ++
  ([("Cookie", "Cookie"), ("User_Agent", "User Agent"),
    ("Accept_Encoding", "Accept Encoding"),
    ("Accept_Language", "Accept Language")].foldr
    (fun h acc =>
      match alookup h.1.toList req.headers with
      | some v => if v.isEmpty then acc else (cleanText v, h.2.toList) :: acc
      | none => acc)
    [])

/-- `for idx, pred in enumerate(predictions): if pred != 'valid':
req.threats[pred] = locations[idx]` over the zipped
`(prediction, location)` pairs.  (If `predict` returned more labels than
locations, Python's `IndexError` is caught by the surrounding `except`
after the in-range writes have happened — exactly the zipped prefix.) -/
def applyPreds : Threats → List (List Char × List Char) → Threats
  | t, [] => t
  | t, (pred, loc) :: rest =>
    applyPreds (if pred = "valid".toList then t else ainsert pred loc t) rest

/-- What `body_parameters` holds after the two-stage body parse of the ML
phase: a `parse_qs` dict, a JSON object, or a non-object JSON value
(on which the later `.items()` raises `AttributeError`). -/
inductive ClfBodyParams where
  | qs (m : List (List Char × List (List Char)))
  | jobj (fields : List (List Char × JVal))
  | nonObj (v : JVal)

/-- The ML phase's `body_parameters`: `parse_qs` of the CLEANED body; if
empty, `json.loads` of the CLEANED body (parse failures recovered to the
empty dict). -/
def clfBodyParams (body : Option (List Char)) : ClfBodyParams :=
  if truthy body then
    let b := cleanText (body.getD [])
    let m := parse_qs b
    if m.isEmpty then
      match jsonLoads b with
      | some (.jobj fields) => .jobj fields
      | some v => .nonObj v
      | none => .qs []
    else .qs m
  else .qs []

/-- `len` of each element of a JSON array value (`TypeError` on a
non-sized element). -/
def elemLens : List JVal → Except PyErr (List Nat)
  | [] => .ok []
  | v :: rest =>
    match pyLen v with
    | .error _ => .error .typeError
    | .ok n =>
      match elemLens rest with
      | .error e => .error e
      | .ok ns => .ok (n :: ns)

/-- Length features contributed by the fields of a JSON-object body:
list values contribute one length per element, any other value its own
`len` — raising `TypeError` on non-sized values. -/
def fieldLens : List (List Char × JVal) → Except PyErr (List Nat)
  | [] => .ok []
  | (_, v) :: rest =>
    match v with
    | .jarr elems =>
      (match elemLens elems with
       | .error e => .error e
       | .ok ns =>
         match fieldLens rest with
         | .error e => .error e
         | .ok ms => .ok (ns ++ ms))
    | v =>
      match pyLen v with
      | .error _ => .error .typeError
      | .ok n =>
        match fieldLens rest with
        | .error e => .error e
        | .ok ms => .ok (n :: ms)

/-- Candidate lengths of a `parse_qs`-shaped parameter dict: the length
of every value, in value order. -/
def qsLens (m : List (List Char × List (List Char))) : List Nat :=
  (avalues m).foldr (fun vals acc => vals.map List.length ++ acc) []

/-- The candidate body-parameter lengths of the ML tampering phase
(each paired with location `Body` by the caller). -/
def mlBodyLens (body : Option (List Char)) : Except PyErr (List Nat) :=
  match clfBodyParams body with
  | .qs m => .ok (qsLens m)
  | .jobj fields => fieldLens fields
  | .nonObj _ => .error .attributeError

/-- The candidate body-parameter lengths of the Signature Engine's
deterministic tampering detector: the length of every value of
`bodyParamsRule` (each value is already the `str()` of the extracted
parameter). -/
def bodyCandLensRule (body : Option (List Char)) : List Nat :=
  qsLens (bodyParamsRule body)

/-- The `(length, location)` feature pairs of the ML tampering phase:
request parameters (location `Request`) then body parameters (location
`Body`), in encounter order. -/
def lenFeatures (req : Request) : Except PyErr (List (Nat × List Char)) :=
  let request_parameters :=
    if truthy req.request then parse_qs (cleanOpt req.request) else []
  let qfeats := (avalues request_parameters).foldr
    (fun vals acc => vals.map (fun e => (e.length, "Request".toList)) ++ acc) []
  match mlBodyLens req.body with
  | .error e => .error e
  | .ok ns => .ok (qfeats ++ ns.map fun n => (n, "Body".toList))

/-- The terminal step of the ML phase: `if not req.threats:
req.threats['valid'] = ''`. -/
def finalize (t : Threats) : Threats :=
  if t.isEmpty then [("valid".toList, [])] else t

/-- `ThreatClassifier.classify_request` on a well-formed `Request`.
Returns the final threat dictionary and the number of `predict` calls
made on `clf` and on `pt_clf`; `.error` models an uncaught exception
propagating to the caller. -/
def classify_request (clf : Option TextClf) (pt_clf : Option PtClf) (req : Request) :
    Except PyErr (Threats × Nat × Nat) :=
  let signature_threats := scan_request req
  if !signature_threats.isEmpty then .ok (signature_threats, 0, 0)
  else
    let params : List (List Char × List Char) := textParams req
    let tc : Threats × Nat :=
      match clf with
      | some f =>
        if params.isEmpty then ([], 0)
        else
          (match f (params.map (·.1)) with
           | .error _ => ([], 1)
           | .ok preds => (applyPreds [] (preds.zip (params.map (·.2))), 1))
      | none => (([] : Threats), 0)
    match lenFeatures req with
    | .error e => .error e
    | .ok feats =>
      let tc2 : Threats × Nat :=
        match pt_clf with
        | some g =>
          if feats.isEmpty then (tc.1, 0)
          else
            (match g (feats.map fun p => [p.1]) with
             | .error _ => (tc.1, 1)
             | .ok preds => (applyPreds tc.1 (preds.zip (feats.map (·.2))), 1))
        | none => (tc.1, 0)
      .ok (finalize tc2.1, tc.2, tc2.2)

/-! ## The Audit Store (`DBController`)

The SQLite database and the `requests_log/` directory are modelled as one
state value: the `logs` relation, the `threats` relation, and the file
store keyed by request id.  `lastrowid` of an insert into `logs` is the
SQLite rowid: one more than the largest existing rowid. -/

/-- One row of the `logs` table. -/
structure LogRow where
  id : Nat
  timestamp : Nat
  origin : Option (List Char)
  host : Option (List Char)
  method : Option (List Char)
deriving DecidableEq

/-- One row of the `threats` table. -/
structure ThreatRow where
  log_id : Nat
  threat_type : List Char
  location : List Char
deriving DecidableEq

/-- The JSON snapshot written by `Request.to_json`: the non-empty
`request` and `body` fields, then all headers, as one object. -/
def toJsonSnapshot (req : Request) : List (List Char × List Char) :=
  (if truthy req.request then [("request".toList, req.request.getD [])] else []) ++
  (if truthy req.body then [("body".toList, req.body.getD [])] else []) ++
  req.headers

/-- The persistent state behind one `DBController`. -/
structure DB where
  logs : List LogRow
  threatRows : List ThreatRow
  files : List (Nat × List (List Char × List Char))
deriving DecidableEq

/-- The rowid SQLite assigns to the next insert into `logs`. -/
def nextId (db : DB) : Nat := (db.logs.map LogRow.id).foldr max 0 + 1

/-- `DBController.save` (timestamps are opaque: the current wall-clock
time is the parameter `now`).  Sets `obj.timestamp` and `obj.id`, inserts
the metadata row, dumps the JSON snapshot, inserts one threat row per
threat-map entry, and returns the new store state together with the
mutated `Request`. -/
def save (now : Nat) (db : DB) (obj : Request) : DB × Request :=
  let i := nextId db
  let obj' : Request := { obj with timestamp := some now, id := some i }
  (⟨db.logs ++ [⟨i, now, obj.origin, obj.host, obj.method⟩],
    db.threatRows ++ obj.threats.map fun p => ⟨i, p.1, p.2⟩,
    db.files ++ [(i, toJsonSnapshot obj)]⟩,
   obj')

/-- `DBController.read_request`: inner-join `logs` and `threats` on the
given id; the metadata dict is populated only if the join is non-empty
(`if results:`), and each joined row contributes a
`[threat_type, location]` pair. -/
def read_request (db : DB) (i : Nat) :
    Option (Nat × Option (List Char) × Option (List Char) × Option (List Char)) ×
      List (List Char × List Char) :=
  match db.logs.find? (fun l => l.id = i) with
  | none => (none, [])
  | some l =>
    let rows := db.threatRows.filter fun t => t.log_id = i
    (if rows.isEmpty then none else some (l.timestamp, l.origin, l.host, l.method),
     rows.map fun t => (t.threat_type, t.location))

/-- Well-formedness of the store: every threat row references an existing
metadata row (the foreign-key shape every state reachable by `save` from
the initialized schema has). -/
def dbWF (db : DB) : Bool :=
  db.threatRows.all fun t => db.logs.any fun l => l.id = t.log_id

end WAF

deriving instance DecidableEq for Except

set_option maxRecDepth 8000

namespace WAF

/-! ## Concrete requests used as test vectors -/

/-- The request of the spec scenario: request line `GET /?id=1' OR '1'='1`. -/
def reqC4 : Request := { request := some "GET /?id=1' OR '1'='1".toList }

/-- The same request line with the closing quote the sqli signature
`'\s*or\s*'\d+'='\d+'` requires. -/
def reqC4' : Request := { request := some "GET /?id=1' OR '1'='1'".toList }

/-- A text scorer that always predicts `valid` (the documented stub). -/
def okTextClf : TextClf := fun xs => .ok (xs.map fun _ => "valid".toList)

/-- A tampering scorer that always predicts `valid`. -/
def okPtClf : PtClf := fun xs => .ok (xs.map fun _ => "valid".toList)

/-- A request whose single parameter value has exactly 100 characters. -/
def req100 : Request := { request := some ("/?a=".toList ++ List.replicate 100 'a') }

/-- A request whose single parameter value has 101 characters. -/
def req101 : Request := { request := some ("/?a=".toList ++ List.replicate 101 'a') }

/-- Over-length value in the query parameters, but a body that also
yields (form-encoded) parameters. -/
def reqCross : Request :=
  { request := some ("/?a=".toList ++ List.replicate 101 'a'), body := some "b=1".toList }

/-- A benign request with no threat evidence at all. -/
def reqSimple : Request := { request := some "/index".toList }

/-- A request carrying an obvious XSS payload in its request line. -/
def reqXss : Request := { request := some "GET /?q=<script>alert(1)</script>".toList }

/-- A request whose body is the well-formed JSON object `{"a": 1}`,
which is no form-encoded data and whose value is not a string. -/
def reqBadJson : Request := { body := some "\x7b\"a\": 1\x7d".toList }

/-- The freshly initialized store. -/
def db0 : DB := ⟨[], [], []⟩

/-- A classified request carrying the threat map `{xss: "Cookie"}`. -/
def reqAudit : Request :=
  { origin := some "10.0.0.7".toList, host := some "example.test".toList,
    method := some "GET".toList,
    headers := [("Cookie".toList, "<script>".toList)],
    threats := [("xss".toList, "Cookie".toList)] }

/-- A JSON value Python's `len()` accepts: string, list or dict. -/
def jvalSized : JVal → Bool
  | .jstr _ => true
  | .jarr _ => true
  | .jobj _ => true
  | _ => false

/-- A top-level JSON-object value the ML length-feature loop survives:
a list of sized elements, or a sized value. -/
def jvalFeatOK : JVal → Bool
  | .jarr elems => elems.all jvalSized
  | v => jvalSized v

/-- The ML phase's body parse yields something its length loop survives:
form parameters, a recovered parse failure, or a JSON object whose
top-level values all pass `jvalFeatOK`. -/
def mlBodySafe (body : Option (List Char)) : Bool :=
  match clfBodyParams body with
  | .qs _ => true
  | .jobj fields => fields.all fun p => jvalFeatOK p.2
  | .nonObj _ => false

/-- A request whose body is a JSON object of string values. -/
def reqJsonStr : Request := { body := some "\x7b\"a\": \"bb\"\x7d".toList }

/-- A body on which the two extractions disagree: `{"a": "b  c"}`.  The
rule engine JSON-parses the RAW body (value `"b  c"`, length 4); the
classifier JSON-parses the CLEANED body, whose inner whitespace run has
been collapsed (value `"b c"`, length 3). -/
def bodyC8 : List Char := "\x7b\"a\": \"b  c\"\x7d".toList

/-! ## Helper lemmas -/

theorem isEmpty_false_of_ne_nil {α : Type} {l : List α} (h : l ≠ []) : l.isEmpty = false := by
  cases l with
  | nil => exact absurd rfl h
  | cons a t => rfl

theorem ne_nil_of_isEmpty_false {α : Type} {l : List α} (h : l.isEmpty = false) : l ≠ [] := by
  cases l with
  | nil => simp [List.isEmpty] at h
  | cons a t => simp

theorem finalize_ne_nil (t : Threats) : finalize t ≠ [] := by
  unfold finalize
  split
  · simp
  · next hne =>
    intro hnil
    rw [hnil] at hne
    exact absurd rfl hne

theorem alookup_ainsert_self {α : Type} (k : List Char) (v : α)
    (m : List (List Char × α)) : alookup k (ainsert k v m) = some v := by
  induction m with
  | nil => simp [ainsert, alookup]
  | cons p rest ih =>
    by_cases h : p.1 = k
    · simp [ainsert, alookup, h]
    · simp [ainsert, alookup, h, ih]

/-! ## Character-level lemmas for the normalization proofs -/

theorem toNat_ofNat_valid {n : Nat} (h : n < 55296) : (Char.ofNat n).toNat = n := by
  rw [Char.ofNat, dif_pos (Or.inl h)]
  rfl

theorem char_toNat_inj {a b : Char} (h : a.toNat = b.toNat) : a = b := by
  have h2 := congrArg Char.ofNat h
  rwa [Char.ofNat_toNat, Char.ofNat_toNat] at h2

theorem pyLower_toNat (c : Char) :
    (pyLower c).toNat =
      if (65 ≤ c.toNat && c.toNat ≤ 90) = true then c.toNat + 32 else c.toNat := by
  unfold pyLower
  split
  · next h =>
    have h' : 65 ≤ c.toNat ∧ c.toNat ≤ 90 := by simpa using h
    exact toNat_ofNat_valid (by omega)
  · rfl

theorem isPyWs_pyLower (c : Char) : isPyWs (pyLower c) = isPyWs c := by
  unfold isPyWs
  rw [pyLower_toNat]
  by_cases h : (65 ≤ c.toNat && c.toNat ≤ 90) = true
  · rw [if_pos h]
    have h' : 65 ≤ c.toNat ∧ c.toNat ≤ 90 := by simpa using h
    rw [Bool.eq_iff_iff]
    simp only [Bool.or_eq_true, decide_eq_true_eq]
    omega
  · rw [if_neg h]

theorem isHexDigit_pyLower (c : Char) : isHexDigit (pyLower c) = isHexDigit c := by
  unfold isHexDigit
  rw [pyLower_toNat]
  by_cases h : (65 ≤ c.toNat && c.toNat ≤ 90) = true
  · rw [if_pos h]
    have h' : 65 ≤ c.toNat ∧ c.toNat ≤ 90 := by simpa using h
    rw [Bool.eq_iff_iff]
    simp only [Bool.or_eq_true, Bool.and_eq_true, decide_eq_true_eq]
    omega
  · rw [if_neg h]

/-- `pyLower` fixes any character that is not an upper-case letter and
never produces one (such as `+`, `%` or a space) from another character. -/
theorem pyLower_eq_iff {c d : Char}
    (hd : d.toNat < 65 ∨ (90 < d.toNat ∧ d.toNat < 97) ∨ 122 < d.toNat) :
    (pyLower c = d) ↔ (c = d) := by
  constructor
  · intro h
    have ht := congrArg Char.toNat h
    rw [pyLower_toNat] at ht
    by_cases hc : (65 ≤ c.toNat && c.toNat ≤ 90) = true
    · rw [if_pos hc] at ht
      have hc' : 65 ≤ c.toNat ∧ c.toNat ≤ 90 := by simpa using hc
      omega
    · rw [if_neg hc] at ht
      exact char_toNat_inj ht
  · intro h
    subst h
    apply char_toNat_inj
    rw [pyLower_toNat]
    rw [if_neg]
    simp only [Bool.and_eq_true, decide_eq_true_eq, not_and]
    omega

theorem pyLower_idem (c : Char) : pyLower (pyLower c) = pyLower c := by
  apply char_toNat_inj
  rw [pyLower_toNat (pyLower c), pyLower_toNat c]
  by_cases h : (65 ≤ c.toNat && c.toNat ≤ 90) = true
  · have h' : 65 ≤ c.toNat ∧ c.toNat ≤ 90 := by simpa using h
    rw [if_pos h, if_neg (by simp only [Bool.and_eq_true, decide_eq_true_eq, not_and]; omega)]
  · rw [if_neg h, if_neg h]

theorem pyLower_space : pyLower ' ' = ' ' := by decide

theorem pyLower_plus_iff (c : Char) : (pyLower c = '+') ↔ (c = '+') :=
  pyLower_eq_iff (by decide)

theorem pyLower_pct_iff (c : Char) : (pyLower c = '%') ↔ (c = '%') :=
  pyLower_eq_iff (by decide)


/-! ## Fixpoints of `unquote_plus` -/

theorem unq_plus_cons (rest : List Char) :
    unquote_plus ('+' :: rest) = ' ' :: unquote_plus rest := by
  rw [unquote_plus.eq_def]
  dsimp only
  rw [if_pos rfl]

theorem unq_pct_hex {a b : Char} (rest2 : List Char)
    (h : (isHexDigit a && isHexDigit b) = true) :
    unquote_plus ('%' :: a :: b :: rest2) =
      Char.ofNat (hexVal a * 16 + hexVal b) :: unquote_plus rest2 := by
  simp [unquote_plus, h]

theorem unq_pct_nonhex {a b : Char} (rest2 : List Char)
    (h : ¬((isHexDigit a && isHexDigit b) = true)) :
    unquote_plus ('%' :: a :: b :: rest2) = '%' :: unquote_plus (a :: b :: rest2) := by
  simp [unquote_plus, h]

theorem unq_pct_one (a : Char) : unquote_plus ['%', a] = '%' :: unquote_plus [a] := by
  simp [unquote_plus]

theorem unq_other {c : Char} (rest : List Char) (h1 : ¬ c = '+') (h2 : ¬ c = '%') :
    unquote_plus (c :: rest) = c :: unquote_plus rest := by
  rw [unquote_plus.eq_def]
  dsimp only
  rw [if_neg h1, if_neg h2]

theorem fixOK_plus_cons (rest : List Char) : fixOK ('+' :: rest) = false := by
  rw [fixOK.eq_def]
  dsimp only
  rw [if_pos rfl]

theorem fixOK_pct_hex {a b : Char} (rest2 : List Char)
    (h : (isHexDigit a && isHexDigit b) = true) :
    fixOK ('%' :: a :: b :: rest2) = false := by
  simp [fixOK, h]

theorem fixOK_pct_nonhex {a b : Char} (rest2 : List Char)
    (h : ¬((isHexDigit a && isHexDigit b) = true)) :
    fixOK ('%' :: a :: b :: rest2) = fixOK (a :: b :: rest2) := by
  simp [fixOK, h]

theorem fixOK_pct_one (a : Char) : fixOK ['%', a] = fixOK [a] := by
  simp [fixOK]

theorem fixOK_pct_nil : fixOK ['%'] = true := by
  simp [fixOK]

theorem fixOK_other {c : Char} (rest : List Char) (h1 : ¬ c = '+') (h2 : ¬ c = '%') :
    fixOK (c :: rest) = fixOK rest := by
  rw [fixOK.eq_def]
  dsimp only
  rw [if_neg h1, if_neg h2]

theorem fixOK_single (x : Char) : fixOK [x] = true ↔ ¬ x = '+' := by
  by_cases h : x = '+'
  · subst h; simp [fixOK]
  · by_cases h2 : x = '%'
    · subst h2; simp [fixOK]
    · simp [fixOK, h, h2]

theorem length_unquote_le (s : List Char) : (unquote_plus s).length ≤ s.length := by
  induction s using unquote_plus.induct with
  | case1 => simp [unquote_plus]
  | case2 rest ih => rw [unq_plus_cons]; simpa using Nat.succ_le_succ ih
  | case3 a b rest2 hhex _ ih =>
    rw [unq_pct_hex rest2 hhex]
    simp only [List.length_cons]
    omega
  | case4 a b rest2 hhex _ ih =>
    rw [unq_pct_nonhex rest2 hhex]
    simp only [List.length_cons] at ih ⊢
    omega
  | case5 a _ ih =>
    rw [unq_pct_one]
    simp only [List.length_cons] at ih ⊢
    omega
  | case6 _ => simp [unquote_plus]
  | case7 c rest h1 h2 ih =>
    rw [unq_other rest h1 h2]
    simpa using Nat.succ_le_succ ih

theorem fixOK_imp_fix {s : List Char} (h : fixOK s = true) : unquote_plus s = s := by
  induction s using unquote_plus.induct with
  | case1 => rfl
  | case2 rest ih => rw [fixOK_plus_cons] at h; exact Bool.noConfusion h
  | case3 a b rest2 hhex _ ih => rw [fixOK_pct_hex rest2 hhex] at h; exact Bool.noConfusion h
  | case4 a b rest2 hhex _ ih =>
    rw [fixOK_pct_nonhex rest2 hhex] at h
    rw [unq_pct_nonhex rest2 hhex, ih h]
  | case5 a _ ih =>
    rw [fixOK_pct_one] at h
    rw [unq_pct_one, ih h]
  | case6 _ => rfl
  | case7 c rest h1 h2 ih =>
    rw [fixOK_other rest h1 h2] at h
    rw [unq_other rest h1 h2, ih h]

theorem fix_imp_fixOK {s : List Char} (h : unquote_plus s = s) : fixOK s = true := by
  induction s using unquote_plus.induct with
  | case1 => rfl
  | case2 rest ih =>
    rw [unq_plus_cons] at h
    exact absurd (List.head_eq_of_cons_eq h) (by decide)
  | case3 a b rest2 hhex _ ih =>
    rw [unq_pct_hex rest2 hhex] at h
    have htl := List.tail_eq_of_cons_eq h
    have hlen := congrArg List.length htl
    have hle := length_unquote_le rest2
    simp only [List.length_cons] at hlen
    omega
  | case4 a b rest2 hhex _ ih =>
    rw [unq_pct_nonhex rest2 hhex] at h
    rw [fixOK_pct_nonhex rest2 hhex]
    exact ih (List.tail_eq_of_cons_eq h)
  | case5 a _ ih =>
    rw [unq_pct_one] at h
    rw [fixOK_pct_one]
    exact ih (List.tail_eq_of_cons_eq h)
  | case6 _ => rfl
  | case7 c rest h1 h2 ih =>
    rw [unq_other rest h1 h2] at h
    rw [fixOK_other rest h1 h2]
    exact ih (List.tail_eq_of_cons_eq h)

/-- Lower-casing preserves being an `unquote_plus` fixpoint: it cannot
create a `+`, a `%`, or change hex-digit-ness. -/
theorem fixOK_map_pyLower {s : List Char} (h : fixOK s = true) :
    fixOK (s.map pyLower) = true := by
  induction s using unquote_plus.induct with
  | case1 => rfl
  | case2 rest ih => rw [fixOK_plus_cons] at h; exact Bool.noConfusion h
  | case3 a b rest2 hhex _ ih => rw [fixOK_pct_hex rest2 hhex] at h; exact Bool.noConfusion h
  | case4 a b rest2 hhex _ ih =>
    rw [fixOK_pct_nonhex rest2 hhex] at h
    simp only [List.map_cons]
    rw [pyLower_pct_iff '%' |>.mpr rfl]
    rw [fixOK_pct_nonhex (rest2.map pyLower)
      (by rw [isHexDigit_pyLower, isHexDigit_pyLower]; exact hhex)]
    simpa using ih h
  | case5 a _ ih =>
    rw [fixOK_pct_one] at h
    simp only [List.map_cons, List.map_nil]
    rw [pyLower_pct_iff '%' |>.mpr rfl, fixOK_pct_one]
    rw [fixOK_single]
    intro hplus
    exact (fixOK_single a).mp h ((pyLower_plus_iff a).mp hplus)
  | case6 _ =>
    simp only [List.map_cons, List.map_nil]
    rw [pyLower_pct_iff '%' |>.mpr rfl]
    exact fixOK_pct_nil
  | case7 c rest h1 h2 ih =>
    rw [fixOK_other rest h1 h2] at h
    simp only [List.map_cons]
    rw [fixOK_other (rest.map pyLower)
      (fun hc => h1 ((pyLower_plus_iff c).mp hc))
      (fun hc => h2 ((pyLower_pct_iff c).mp hc))]
    exact ih h

theorem unquoteLoop_eq_self {s : List Char} (h : unquote_plus s = s) (fuel : Nat) :
    unquoteLoop fuel s = s := by
  cases fuel with
  | zero => rfl
  | succ n => simp [unquoteLoop, h]


/-! ## Words and whitespace collapsing -/

theorem takeWhile_append_all {α : Type} {p : α → Bool} {l : List α} (r : List α)
    (h : ∀ x ∈ l, p x = true) : (l ++ r).takeWhile p = l ++ r.takeWhile p := by
  induction l with
  | nil => rfl
  | cons a t ih =>
    have ha := h a (List.mem_cons_self a t)
    simp only [List.cons_append, List.takeWhile_cons_of_pos ha]
    rw [ih fun x hx => h x (List.mem_cons_of_mem a hx)]

theorem dropWhile_append_all {α : Type} {p : α → Bool} {l : List α} (r : List α)
    (h : ∀ x ∈ l, p x = true) : (l ++ r).dropWhile p = r.dropWhile p := by
  induction l with
  | nil => rfl
  | cons a t ih =>
    have ha := h a (List.mem_cons_self a t)
    simp only [List.cons_append, List.dropWhile_cons_of_pos ha]
    exact ih fun x hx => h x (List.mem_cons_of_mem a hx)

theorem dropWhile_length_le {α : Type} (p : α → Bool) (l : List α) :
    (l.dropWhile p).length ≤ l.length := by
  induction l with
  | nil => exact Nat.le_refl 0
  | cons a t ih =>
    by_cases h : p a
    · simp only [List.dropWhile_cons_of_pos h]
      exact Nat.le_trans ih (by simp)
    · simp [List.dropWhile_cons_of_neg h]

theorem wordsOf_nil : wordsOf [] = [] := rfl

theorem wordsAux_acc_spec (s : List Char) :
    ∀ acc : List Char, acc ≠ [] →
      wordsAux s acc =
        (acc.reverse ++ s.takeWhile (fun x => !isPyWs x)) ::
          wordsOf (s.dropWhile (fun x => !isPyWs x)) := by
  induction s with
  | nil =>
    intro acc hacc
    simp [wordsAux, wordsOf, isEmpty_false_of_ne_nil hacc]
  | cons c rest ih =>
    intro acc hacc
    by_cases hws : isPyWs c
    · have hnp : ¬((fun x => !isPyWs x) c = true) := by simp [hws]
      rw [@List.takeWhile_cons_of_neg _ (fun x => !isPyWs x) c rest hnp,
        @List.dropWhile_cons_of_neg _ (fun x => !isPyWs x) c rest hnp,
        List.append_nil]
      simp only [wordsAux, hws, if_true, isEmpty_false_of_ne_nil hacc, if_false,
        Bool.false_eq_true]
      simp [wordsOf, wordsAux, hws]
    · have hp : (fun x => !isPyWs x) c = true := by simp [hws]
      have h1 : wordsAux (c :: rest) acc = wordsAux rest (c :: acc) := by
        simp [wordsAux, hws]
      rw [h1, ih (c :: acc) (by simp),
        @List.takeWhile_cons_of_pos _ (fun x => !isPyWs x) c rest hp,
        @List.dropWhile_cons_of_pos _ (fun x => !isPyWs x) c rest hp]
      simp

/-- The defining case equation of `wordsOf` in `takeWhile`/`dropWhile`
form. -/
theorem wordsOf_cons (c : Char) (rest : List Char) :
    wordsOf (c :: rest) =
      if isPyWs c then wordsOf rest
      else (c :: rest.takeWhile (fun x => !isPyWs x)) ::
             wordsOf (rest.dropWhile (fun x => !isPyWs x)) := by
  by_cases hws : isPyWs c
  · simp [wordsOf, wordsAux, hws]
  · rw [if_neg hws]
    have h1 : wordsOf (c :: rest) = wordsAux rest [c] := by simp [wordsOf, wordsAux, hws]
    rw [h1, wordsAux_acc_spec rest [c] (by simp)]
    simp

/-- Every word is non-empty and whitespace-free. -/
theorem wordsOf_sound : ∀ (n : Nat) (s : List Char), s.length ≤ n →
    ∀ w ∈ wordsOf s, w ≠ [] ∧ ∀ c ∈ w, isPyWs c = false := by
  intro n
  induction n with
  | zero =>
    intro s hs w hw
    cases s with
    | nil => cases hw
    | cons c rest => simp at hs
  | succ n ih =>
    intro s hs w hw
    cases s with
    | nil => cases hw
    | cons c rest =>
      rw [wordsOf_cons] at hw
      simp only [List.length_cons] at hs
      by_cases hws : isPyWs c
      · rw [if_pos hws] at hw
        exact ih rest (by omega) w hw
      · rw [if_neg hws] at hw
        rcases List.mem_cons.mp hw with rfl | hw2
        · refine ⟨by simp, ?_⟩
          intro x hx
          rcases List.mem_cons.mp hx with rfl | hx2
          · simpa using hws
          · have := List.mem_takeWhile_imp hx2
            simpa using this
        · exact ih (rest.dropWhile fun x => !isPyWs x)
            (Nat.le_trans (dropWhile_length_le _ rest) (by omega)) w hw2

theorem wordsOf_goodWord {w : List Char} (hne : w ≠ [])
    (hfree : ∀ c ∈ w, isPyWs c = false) (t : List Char) (ht : t = [] ∨ ∃ u, t = ' ' :: u) :
    wordsOf (w ++ t) = w :: wordsOf t := by
  cases w with
  | nil => exact absurd rfl hne
  | cons c w' =>
    have hcfree : isPyWs c = false := hfree c (List.mem_cons_self c w')
    have hw'free : ∀ x ∈ w', (fun x => !isPyWs x) x = true := by
      intro x hx
      simp [hfree x (List.mem_cons_of_mem c hx)]
    rw [List.cons_append, wordsOf_cons, if_neg (by simp [hcfree])]
    rw [takeWhile_append_all t hw'free, dropWhile_append_all t hw'free]
    rcases ht with rfl | ⟨u, rfl⟩
    · simp
    · have hsp : ¬((fun x => !isPyWs x) ' ' = true) := by simp [isPyWs]
      rw [@List.takeWhile_cons_of_neg _ (fun x => !isPyWs x) ' ' u hsp,
        @List.dropWhile_cons_of_neg _ (fun x => !isPyWs x) ' ' u hsp]
      simp

/-- `split` recovers the words from their `' '.join`. -/
theorem wordsOf_joinWords : ∀ ws : List (List Char),
    (∀ w ∈ ws, w ≠ [] ∧ ∀ c ∈ w, isPyWs c = false) →
    wordsOf (joinWords ws) = ws
  | [], _ => rfl
  | [w], h => by
    have hw := h w (List.mem_cons_self w [])
    have := wordsOf_goodWord hw.1 hw.2 [] (Or.inl rfl)
    simpa [joinWords] using this
  | w :: w₂ :: rest, h => by
    have hw := h w (List.mem_cons_self w (w₂ :: rest))
    have hrest : wordsOf (joinWords (w₂ :: rest)) = w₂ :: rest :=
      wordsOf_joinWords (w₂ :: rest) fun x hx => h x (List.mem_cons_of_mem w hx)
    have hjoin : joinWords (w :: w₂ :: rest) = w ++ ' ' :: joinWords (w₂ :: rest) := rfl
    rw [hjoin, wordsOf_goodWord hw.1 hw.2 (' ' :: joinWords (w₂ :: rest))
      (Or.inr ⟨joinWords (w₂ :: rest), rfl⟩)]
    have hsp : wordsOf (' ' :: joinWords (w₂ :: rest)) = wordsOf (joinWords (w₂ :: rest)) := by
      rw [wordsOf_cons, if_pos (by simp [isPyWs])]
    rw [hsp, hrest]

/-- Whitespace collapsing is idempotent. -/
theorem collapseWs_idem (s : List Char) : collapseWs (collapseWs s) = collapseWs s := by
  unfold collapseWs
  rw [wordsOf_joinWords (wordsOf s) fun w hw => wordsOf_sound s.length s (Nat.le_refl _) w hw]

/-! ## Lower-casing commutes with collapsing; fixpoints survive both -/

theorem notWs_comp_pyLower :
    ((fun x => !isPyWs x) ∘ pyLower) = (fun x => !isPyWs x) := by
  funext x
  simp [Function.comp, isPyWs_pyLower]

theorem wordsOf_map_pyLower : ∀ (n : Nat) (s : List Char), s.length ≤ n →
    wordsOf (s.map pyLower) = (wordsOf s).map (List.map pyLower) := by
  intro n
  induction n with
  | zero =>
    intro s hs
    cases s with
    | nil => rfl
    | cons c rest => simp at hs
  | succ n ih =>
    intro s hs
    cases s with
    | nil => rfl
    | cons c rest =>
      simp only [List.length_cons] at hs
      rw [List.map_cons, wordsOf_cons (pyLower c), wordsOf_cons c, isPyWs_pyLower]
      by_cases hws : isPyWs c
      · rw [if_pos hws, if_pos hws, ih rest (by omega)]
      · rw [if_neg hws, if_neg hws]
        rw [List.takeWhile_map, List.dropWhile_map, notWs_comp_pyLower]
        rw [ih (rest.dropWhile fun x => !isPyWs x)
          (Nat.le_trans (dropWhile_length_le _ rest) (by omega))]
        simp

theorem joinWords_map_pyLower : ∀ ws : List (List Char),
    joinWords (ws.map (List.map pyLower)) = (joinWords ws).map pyLower
  | [] => rfl
  | [w] => rfl
  | w :: w₂ :: rest => by
    have ih := joinWords_map_pyLower (w₂ :: rest)
    have h1 : joinWords (w :: w₂ :: rest) = w ++ ' ' :: joinWords (w₂ :: rest) := rfl
    have h2 : joinWords ((w :: w₂ :: rest).map (List.map pyLower)) =
        w.map pyLower ++ ' ' :: joinWords ((w₂ :: rest).map (List.map pyLower)) := rfl
    rw [h1, h2, ih, List.map_append, List.map_cons, pyLower_space]

theorem collapseWs_map_pyLower (s : List Char) :
    collapseWs (s.map pyLower) = (collapseWs s).map pyLower := by
  unfold collapseWs
  rw [wordsOf_map_pyLower s.length s (Nat.le_refl _), joinWords_map_pyLower]

theorem fixOK_tail {c : Char} {rest : List Char} (h : fixOK (c :: rest) = true) :
    fixOK rest = true := by
  by_cases hc1 : c = '+'
  · subst hc1; rw [fixOK_plus_cons] at h; exact Bool.noConfusion h
  · by_cases hc2 : c = '%'
    · subst hc2
      cases rest with
      | nil => rfl
      | cons a t =>
        cases t with
        | nil => rwa [fixOK_pct_one] at h
        | cons b t2 =>
          by_cases hhex : (isHexDigit a && isHexDigit b) = true
          · rw [fixOK_pct_hex t2 hhex] at h; exact Bool.noConfusion h
          · rwa [fixOK_pct_nonhex t2 hhex] at h
    · rwa [fixOK_other rest hc1 hc2] at h

theorem fixOK_suffix : ∀ (l r : List Char), fixOK (l ++ r) = true → fixOK r = true
  | [], _, h => h
  | _ :: l', r, h => fixOK_suffix l' r (fixOK_tail h)

theorem fixOK_prefix : ∀ (l r : List Char), fixOK (l ++ r) = true → fixOK l = true
  | [], _, _ => rfl
  | c :: l', r, h => by
    by_cases hc1 : c = '+'
    · subst hc1; rw [List.cons_append, fixOK_plus_cons] at h; exact Bool.noConfusion h
    · by_cases hc2 : c = '%'
      · subst hc2
        cases l' with
        | nil => exact fixOK_pct_nil
        | cons a l2 =>
          cases l2 with
          | nil =>
            rw [fixOK_pct_one]
            cases r with
            | nil => rwa [List.append_nil, fixOK_pct_one] at h
            | cons b r' =>
              simp only [List.cons_append, List.nil_append] at h
              by_cases hhex : (isHexDigit a && isHexDigit b) = true
              · rw [fixOK_pct_hex r' hhex] at h; exact Bool.noConfusion h
              · rw [fixOK_pct_nonhex r' hhex] at h
                exact fixOK_prefix [a] (b :: r') h
          | cons b l3 =>
            simp only [List.cons_append] at h
            by_cases hhex : (isHexDigit a && isHexDigit b) = true
            · rw [fixOK_pct_hex (l3 ++ r) hhex] at h; exact Bool.noConfusion h
            · rw [fixOK_pct_nonhex (l3 ++ r) hhex] at h
              rw [fixOK_pct_nonhex l3 hhex]
              exact fixOK_prefix (a :: b :: l3) r h
      · rw [List.cons_append, fixOK_other (l' ++ r) hc1 hc2] at h
        rw [fixOK_other l' hc1 hc2]
        exact fixOK_prefix l' r h

theorem fixOK_dropWhile (p : Char → Bool) {s : List Char} (h : fixOK s = true) :
    fixOK (s.dropWhile p) = true :=
  fixOK_suffix (s.takeWhile p) (s.dropWhile p)
    (by rwa [List.takeWhile_append_dropWhile])

theorem fixOK_wordsOf : ∀ (n : Nat) (s : List Char), s.length ≤ n → fixOK s = true →
    ∀ w ∈ wordsOf s, fixOK w = true := by
  intro n
  induction n with
  | zero =>
    intro s hs hf w hw
    cases s with
    | nil => cases hw
    | cons c rest => simp at hs
  | succ n ih =>
    intro s hs hf w hw
    cases s with
    | nil => cases hw
    | cons c rest =>
      simp only [List.length_cons] at hs
      rw [wordsOf_cons] at hw
      by_cases hws : isPyWs c
      · rw [if_pos hws] at hw
        exact ih rest (by omega) (fixOK_tail hf) w hw
      · rw [if_neg hws] at hw
        rcases List.mem_cons.mp hw with rfl | hw2
        · refine fixOK_prefix _ (rest.dropWhile fun x => !isPyWs x) ?_
          rwa [List.cons_append, List.takeWhile_append_dropWhile]
        · exact ih (rest.dropWhile fun x => !isPyWs x)
            (Nat.le_trans (dropWhile_length_le _ rest) (by omega))
            (fixOK_dropWhile _ (fixOK_tail hf)) w hw2

theorem fixOK_append_sep (t : List Char) (ht : fixOK t = true)
    (hsep : t = [] ∨ ∃ u, t = ' ' :: u) :
    ∀ w : List Char, fixOK w = true → fixOK (w ++ t) = true := by
  intro w
  induction w with
  | nil => intro _; simpa using ht
  | cons c w' ih =>
    intro hw
    by_cases hc1 : c = '+'
    · subst hc1; rw [fixOK_plus_cons] at hw; exact Bool.noConfusion hw
    · by_cases hc2 : c = '%'
      · subst hc2
        cases w' with
        | nil =>
          rcases hsep with rfl | ⟨u, rfl⟩
          · exact fixOK_pct_nil
          · cases u with
            | nil =>
              rw [show (['%'] ++ [' '] : List Char) = ['%', ' '] from rfl, fixOK_pct_one]
              exact (fixOK_single ' ').mpr (by decide)
            | cons b u' =>
              have hnx : ¬((isHexDigit ' ' && isHexDigit b) = true) := by
                simp [isHexDigit]
              simp only [List.cons_append, List.nil_append]
              rw [fixOK_pct_nonhex u' hnx]
              exact ht
        | cons a w2 =>
          cases w2 with
          | nil =>
            rw [fixOK_pct_one] at hw
            rcases hsep with rfl | ⟨u, rfl⟩
            · simpa [fixOK_pct_one] using hw
            · have hnx : ¬((isHexDigit a && isHexDigit ' ') = true) := by
                simp [isHexDigit]
              simp only [List.cons_append, List.nil_append]
              rw [fixOK_pct_nonhex u hnx]
              exact ih hw
          | cons b w3 =>
            by_cases hhex : (isHexDigit a && isHexDigit b) = true
            · rw [fixOK_pct_hex w3 hhex] at hw; exact Bool.noConfusion hw
            · rw [fixOK_pct_nonhex w3 hhex] at hw
              simp only [List.cons_append]
              rw [fixOK_pct_nonhex (w3 ++ t) hhex]
              have := ih hw
              simpa using this
      · rw [fixOK_other w' hc1 hc2] at hw
        rw [List.cons_append, fixOK_other (w' ++ t) hc1 hc2]
        exact ih hw

theorem fixOK_joinWords : ∀ ws : List (List Char),
    (∀ w ∈ ws, fixOK w = true) → fixOK (joinWords ws) = true
  | [], _ => rfl
  | [w], h => by simpa [joinWords] using h w (List.mem_cons_self w [])
  | w :: w₂ :: rest, h => by
    have hw := h w (List.mem_cons_self w (w₂ :: rest))
    have hJ : fixOK (joinWords (w₂ :: rest)) = true :=
      fixOK_joinWords (w₂ :: rest) fun x hx => h x (List.mem_cons_of_mem w hx)
    have hsp : fixOK (' ' :: joinWords (w₂ :: rest)) = true := by
      rw [fixOK_other (joinWords (w₂ :: rest)) (by decide) (by decide)]
      exact hJ
    have h1 : joinWords (w :: w₂ :: rest) = w ++ ' ' :: joinWords (w₂ :: rest) := rfl
    rw [h1]
    exact fixOK_append_sep (' ' :: joinWords (w₂ :: rest)) hsp
      (Or.inr ⟨joinWords (w₂ :: rest), rfl⟩) w hw

theorem fixOK_collapseWs {s : List Char} (h : fixOK s = true) :
    fixOK (collapseWs s) = true :=
  fixOK_joinWords (wordsOf s) fun w hw => fixOK_wordsOf s.length s (Nat.le_refl _) h w hw

/-! ## C6 — idempotence of normalization -/

/-- C6: `normalize (normalize x) = normalize x` for every input whose
percent-decoding stabilizes within the 5-iteration cap (that is, the
decode loop's result is a true fixpoint of `unquote_plus`). -/
theorem c6_normalize_idempotent (s : List Char)
    (h : unquote_plus (unquoteLoop 5 s) = unquoteLoop 5 s) :
    cleanText (cleanText s) = cleanText s := by
  have hfix : fixOK (unquoteLoop 5 s) = true := fix_imp_fixOK h
  have hfix2 : fixOK (collapseWs (unquoteLoop 5 s)) = true := fixOK_collapseWs hfix
  have hfix3 : fixOK ((collapseWs (unquoteLoop 5 s)).map pyLower) = true :=
    fixOK_map_pyLower hfix2
  have hyfix : unquote_plus (cleanText s) = cleanText s := fixOK_imp_fix hfix3
  have h1 : cleanText (cleanText s) = (collapseWs (cleanText s)).map pyLower := by
    unfold cleanText
    rw [unquoteLoop_eq_self (by exact hyfix) 5]
  rw [h1]
  have h2 : cleanText s = (collapseWs (unquoteLoop 5 s)).map pyLower := rfl
  rw [h2, collapseWs_map_pyLower, collapseWs_idem, List.map_map]
  have h3 : (pyLower ∘ pyLower) = pyLower := funext fun c => pyLower_idem c
  rw [h3]

/-- C6 witness: the doubly-encodable input `A%20B` stabilizes in one
round and normalizes idempotently. -/
theorem c6_normalize_idempotent_witness :
    (unquote_plus (unquoteLoop 5 "A%20B".toList) = unquoteLoop 5 "A%20B".toList) ∧
      cleanText (cleanText "A%20B".toList) = cleanText "A%20B".toList :=
  ⟨by decide, c6_normalize_idempotent "A%20B".toList (by decide)⟩

/-! ## C2 — signature precedence -/

/-- C2: whenever `scan_request` returns a non-empty mapping,
`classify_request` makes that mapping the request's threat map and calls
neither scorer (both `predict` call counts are zero). -/
theorem c2_signature_hit_skips_ml (clf : Option TextClf) (pt_clf : Option PtClf)
    (req : Request) (h : scan_request req ≠ []) :
    classify_request clf pt_clf req = .ok (scan_request req, 0, 0) := by
  unfold classify_request
  simp only [isEmpty_false_of_ne_nil h, Bool.not_false, if_true]

/-- C2 witness: a request with an XSS signature hit. -/
theorem c2_signature_hit_skips_ml_witness :
    scan_request reqXss ≠ [] ∧
      classify_request none none reqXss = .ok (scan_request reqXss, 0, 0) :=
  ⟨by decide, c2_signature_hit_skips_ml none none reqXss (by decide)⟩

/-! ## C1 — the final threat mapping is never empty -/

/-- C1: whenever `classify_request` returns (rather than raising), the
resulting threat mapping is non-empty — the signature mapping, the
ML-phase labels, or the synthesized `valid ↦ ''`. -/
theorem c1_threats_nonempty (clf : Option TextClf) (pt_clf : Option PtClf)
    (req : Request) (out : Threats × Nat × Nat)
    (h : classify_request clf pt_clf req = .ok out) : out.1 ≠ [] := by
  unfold classify_request at h
  cases hs : (scan_request req).isEmpty with
  | false =>
    simp only [hs, Bool.not_false, if_true, Except.ok.injEq] at h
    rcases h with rfl
    exact ne_nil_of_isEmpty_false hs
  | true =>
    cases hlf : lenFeatures req with
    | error e =>
      simp only [hs, hlf, Bool.not_true, Bool.false_eq_true, if_false] at h
      exact Except.noConfusion h
    | ok feats =>
      simp only [hs, hlf, Bool.not_true, Bool.false_eq_true, if_false, Except.ok.injEq] at h
      rcases h with rfl
      exact finalize_ne_nil _

/-- C1 witness: a benign request classified with no scorers loaded. -/
theorem c1_threats_nonempty_witness :
    classify_request none none reqSimple = .ok ([("valid".toList, [])], 0, 0) ∧
      (([("valid".toList, [])], 0, 0) : Threats × Nat × Nat).1 ≠ [] :=
  ⟨by decide, c1_threats_nonempty none none reqSimple _ (by decide)⟩

/-! ## C4 — the `GET /?id=1' OR '1'='1` scenario -/

/-- C4 counterexample: on the request line `GET /?id=1' OR '1'='1` no
signature fires at all (the sqli pattern `'\s*or\s*'\d+'='\d+'` needs a
closing quote), so the signature phase assigns nothing and the ML phase
runs — with always-`valid` scorers, both are called once and the final
mapping is `valid ↦ ''`. -/
theorem c4_counterexample :
    scan_request reqC4 = [] ∧
      classify_request (some okTextClf) (some okPtClf) reqC4 =
        .ok ([("valid".toList, [])], 1, 1) := by
  constructor
  · decide
  · decide

/-- C4 (amended): with the closing quote — request line
`GET /?id=1' OR '1'='1'` — the signature phase detects `sqli` at
location `Request` and the ML phase is skipped (no scorer is called,
whatever scorers are loaded). -/
theorem c4_amended_sqli_detected (clf : Option TextClf) (pt_clf : Option PtClf) :
    classify_request clf pt_clf reqC4' = .ok ([("sqli".toList, "Request".toList)], 0, 0) :=
  rfl

/-! ## C5 — the 100-character boundary of the tampering check -/

/-- C5: a request whose single parameter value has exactly 100 characters
is not tagged `parameter-tampering` by `scan_request`; with 101
characters it is. -/
theorem c5_length_boundary :
    alookup "parameter-tampering".toList (scan_request req100) = none ∧
      alookup "parameter-tampering".toList (scan_request req101) = some "Request".toList := by
  constructor
  · decide
  · decide

/-! ## C9 — location attribution of the tampering label -/

/-- C9: whenever the tampering check fires (some parameter value longer
than 100 characters), the recorded location is `Body` exactly when
body-derived parameters exist and `Request` otherwise — regardless of
which parameter set contained the over-length value. -/
theorem c9_tamper_location (req : Request)
    (h : ((avalues (queryParamsOf req) ++ avalues (bodyParamsRule req.body)).any
           (fun vlist => vlist.any fun v => 100 < v.length)) = true) :
    alookup "parameter-tampering".toList (scan_request req) =
      some (if (bodyParamsRule req.body).isEmpty then "Request".toList else "Body".toList) := by
  unfold scan_request
  simp only [h, if_true]
  split
  · exact alookup_ainsert_self _ _ _
  · exact alookup_ainsert_self _ _ _

/-- C9 witness: the over-length value sits in the query parameters while
the body also yields parameters — the location is still `Body`. -/
theorem c9_tamper_location_witness :
    (((avalues (queryParamsOf reqCross) ++ avalues (bodyParamsRule reqCross.body)).any
        (fun vlist => vlist.any fun v => 100 < v.length)) = true) ∧
      alookup "parameter-tampering".toList (scan_request reqCross) =
        some (if (bodyParamsRule reqCross.body).isEmpty then "Request".toList
              else "Body".toList) :=
  ⟨by decide, c9_tamper_location reqCross (by decide)⟩

/-! ## C10 — frame condition of `save` -/

/-- C10: `DBController.save` mutates only `id` and `timestamp`: origin,
host, request line, body, method, headers and threats of the persisted
`Request` are unchanged. -/
theorem c10_save_frame (now : Nat) (db : DB) (req : Request) :
    ((save now db req).2.origin = req.origin) ∧
      ((save now db req).2.host = req.host) ∧
      ((save now db req).2.request = req.request) ∧
      ((save now db req).2.body = req.body) ∧
      ((save now db req).2.method = req.method) ∧
      ((save now db req).2.headers = req.headers) ∧
      ((save now db req).2.threats = req.threats) :=
  ⟨rfl, rfl, rfl, rfl, rfl, rfl, rfl⟩

/-! ## C7 — audit-store round trip -/

theorem le_foldr_max {xs : List Nat} {x : Nat} (h : x ∈ xs) : x ≤ xs.foldr max 0 := by
  induction xs with
  | nil => cases h
  | cons a t ih =>
    rcases List.mem_cons.mp h with rfl | hmem
    · exact Nat.le_max_left _ _
    · exact Nat.le_trans (ih hmem) (Nat.le_max_right _ _)

theorem id_lt_nextId {db : DB} {l : LogRow} (h : l ∈ db.logs) : l.id < nextId db := by
  have : l.id ≤ (db.logs.map LogRow.id).foldr max 0 :=
    le_foldr_max (List.mem_map_of_mem LogRow.id h)
  exact Nat.lt_succ_of_le this

theorem find?_append_left_none {α : Type} (p : α → Bool) (l₁ l₂ : List α)
    (h : ∀ x ∈ l₁, p x = false) : (l₁ ++ l₂).find? p = l₂.find? p := by
  induction l₁ with
  | nil => rfl
  | cons a t ih =>
    have ha : p a = false := h a (List.mem_cons_self a t)
    simp only [List.cons_append, List.find?, ha]
    exact ih fun x hx => h x (List.mem_cons_of_mem a hx)

theorem filter_eq_nil_of_none {α : Type} (p : α → Bool) (l : List α)
    (h : ∀ x ∈ l, p x = false) : l.filter p = [] := by
  induction l with
  | nil => rfl
  | cons a t ih =>
    have ha : p a = false := h a (List.mem_cons_self a t)
    simp only [List.filter, ha]
    exact ih fun x hx => h x (List.mem_cons_of_mem a hx)

/-- C7: persisting a request whose threat map is `{xss: "Cookie"}` and
reading it back by its assigned identifier yields exactly the pair
`(xss, Cookie)` and the saved metadata (timestamp, origin, host, method),
in any well-formed store state. -/
theorem c7_save_read_roundtrip (now : Nat) (db : DB) (req : Request)
    (hthr : req.threats = [("xss".toList, "Cookie".toList)])
    (hwf : dbWF db = true) :
    (save now db req).2.id = some (nextId db) ∧
      read_request (save now db req).1 (nextId db) =
        (some (now, req.origin, req.host, req.method),
         [("xss".toList, "Cookie".toList)]) := by
  refine ⟨rfl, ?_⟩
  have hfindLogs : ∀ l ∈ db.logs, (decide (l.id = nextId db)) = false := by
    intro l hl
    simp only [decide_eq_false_iff_not]
    exact Nat.ne_of_lt (id_lt_nextId hl)
  have hfilterOld : ∀ t ∈ db.threatRows, (decide (t.log_id = nextId db)) = false := by
    intro t ht
    simp only [decide_eq_false_iff_not]
    have := List.all_eq_true.mp hwf t ht
    rcases List.any_eq_true.mp this with ⟨l, hl, hid⟩
    have : l.id = t.log_id := of_decide_eq_true hid
    exact this ▸ Nat.ne_of_lt (id_lt_nextId hl)
  unfold read_request save
  simp only [hthr]
  rw [find?_append_left_none _ _ _ hfindLogs]
  simp only [List.find?, decide_True]
  rw [List.filter_append, filter_eq_nil_of_none _ _ hfilterOld]
  simp [List.filter]

/-- C7 witness: the round trip on the empty store at time 42. -/
theorem c7_save_read_roundtrip_witness :
    reqAudit.threats = [("xss".toList, "Cookie".toList)] ∧ dbWF db0 = true ∧
      ((save 42 db0 reqAudit).2.id = some (nextId db0) ∧
        read_request (save 42 db0 reqAudit).1 (nextId db0) =
          (some (42, reqAudit.origin, reqAudit.host, reqAudit.method),
           [("xss".toList, "Cookie".toList)])) :=
  ⟨by decide, by decide, c7_save_read_roundtrip 42 db0 reqAudit (by decide) (by decide)⟩

/-! ## C3 — exception safety of parameter extraction -/

theorem pyLen_ok_of_sized {v : JVal} (h : jvalSized v = true) : ∃ n, pyLen v = .ok n := by
  cases v <;> simp_all [jvalSized, pyLen]

theorem elemLens_ok {elems : List JVal} (h : elems.all jvalSized = true) :
    ∃ ns, elemLens elems = .ok ns := by
  induction elems with
  | nil => exact ⟨[], rfl⟩
  | cons v rest ih =>
    rcases List.all_eq_true.mp h v (List.mem_cons_self v rest) |> fun hv =>
      pyLen_ok_of_sized hv with ⟨n, hn⟩
    rcases ih (List.all_eq_true.mpr fun x hx =>
      List.all_eq_true.mp h x (List.mem_cons_of_mem v hx)) with ⟨ns, hns⟩
    exact ⟨n :: ns, by simp [elemLens, hn, hns]⟩

theorem fieldLens_ok {fields : List (List Char × JVal)}
    (h : fields.all (fun p => jvalFeatOK p.2) = true) :
    ∃ ns, fieldLens fields = .ok ns := by
  induction fields with
  | nil => exact ⟨[], rfl⟩
  | cons p rest ih =>
    have hv : jvalFeatOK p.2 = true := List.all_eq_true.mp h p (List.mem_cons_self p rest)
    rcases ih (List.all_eq_true.mpr fun x hx =>
      List.all_eq_true.mp h x (List.mem_cons_of_mem p hx)) with ⟨ms, hms⟩
    rcases p with ⟨k, v⟩
    cases v with
    | jarr elems =>
      rcases elemLens_ok (by simpa [jvalFeatOK] using hv) with ⟨ns, hns⟩
      exact ⟨ns ++ ms, by simp [fieldLens, hns, hms]⟩
    | jstr s => exact ⟨s.length :: ms, by simp [fieldLens, pyLen, hms]⟩
    | jobj f => exact ⟨f.length :: ms, by simp [fieldLens, pyLen, hms]⟩
    | jnum l => simp [jvalFeatOK, jvalSized] at hv
    | jbool b => simp [jvalFeatOK, jvalSized] at hv
    | jnull => simp [jvalFeatOK, jvalSized] at hv

theorem mlBodyLens_ok {body : Option (List Char)} (h : mlBodySafe body = true) :
    ∃ ns, mlBodyLens body = .ok ns := by
  unfold mlBodySafe at h
  unfold mlBodyLens
  cases hcb : clfBodyParams body with
  | qs m => exact ⟨qsLens m, rfl⟩
  | jobj fields =>
    rw [hcb] at h
    exact fieldLens_ok h
  | nonObj v =>
    rw [hcb] at h
    exact absurd h (by simp)

theorem lenFeatures_ok {req : Request} (h : mlBodySafe req.body = true) :
    ∃ feats, lenFeatures req = .ok feats := by
  rcases mlBodyLens_ok h with ⟨ns, hns⟩
  exact ⟨_, by unfold lenFeatures; rw [hns]⟩

/-- C3 counterexample: the body `{"a": 1}` is well-formed JSON whose value
is not a string; `scan_request` recovers (no tampering, no signatures),
but the ML phase of `classify_request` raises `TypeError` at
`len(value)` — the exception propagates to the caller. -/
theorem c3_counterexample :
    scan_request reqBadJson = [] ∧
      classify_request none none reqBadJson = .error .typeError := by
  constructor
  · decide
  · decide

/-- C3 (amended): `scan_request` is total (every fallible step of it is
guarded, which the embedding reflects by it being a plain function), and
the ML phase of `classify_request` returns without raising for every
request whose body either parses as form data, fails both parses, or
parses as a JSON object all of whose top-level values are strings, lists
of sized values, or objects.  (A JSON body parsing to anything else makes
the ML phase raise `TypeError`/`AttributeError`, as the counterexample
shows.) -/
theorem c3_amended_no_raise (clf : Option TextClf) (pt_clf : Option PtClf)
    (req : Request) (h : mlBodySafe req.body = true) :
    ∃ out, classify_request clf pt_clf req = .ok out := by
  unfold classify_request
  cases hs : (scan_request req).isEmpty with
  | false => exact ⟨(scan_request req, 0, 0), by simp only [hs, Bool.not_false, if_true]⟩
  | true =>
    rcases lenFeatures_ok h with ⟨feats, hf⟩
    simp only [hs, Bool.not_true, Bool.false_eq_true, if_false, hf]
    exact ⟨_, rfl⟩

/-- C3 witness: the JSON-object-of-strings body is classified without an
exception. -/
theorem c3_amended_no_raise_witness :
    mlBodySafe reqJsonStr.body = true ∧
      ∃ out, classify_request none none reqJsonStr = .ok out :=
  ⟨by decide, c3_amended_no_raise none none reqJsonStr (by decide)⟩

/-! ## C8 — the two body-parameter extractions -/

/-- C8 counterexample: the candidate-length sets differ (`[4]` vs `[3]`)
on `bodyC8`. -/
theorem c8_counterexample :
    bodyCandLensRule (some bodyC8) = [4] ∧ mlBodyLens (some bodyC8) = .ok [3] := by
  constructor
  · decide
  · decide

/-- C8 (amended): the two body-parameter extractions compute the same
candidate-length sequence whenever form-encoded parsing of the cleaned
body yields parameters (or the body is absent/empty); they may disagree
once the JSON fallback is reached, because the rule engine parses the raw
body and scalarizes every value with `str()` while the classifier parses
the cleaned body and iterates list values. -/
theorem c8_amended_form_branch_agrees (body : Option (List Char))
    (h : parse_qs (cleanOpt body) ≠ [] ∨ truthy body = false) :
    mlBodyLens body = .ok (bodyCandLensRule body) := by
  cases htr : truthy body with
  | false =>
    simp [mlBodyLens, clfBodyParams, bodyParamsRule, bodyCandLensRule, htr]
  | true =>
    rcases h with h | h
    · cases body with
      | none => simp [truthy] at htr
      | some b =>
        have hm : parse_qs (cleanText b) ≠ [] := by simpa [cleanOpt] using h
        simp [mlBodyLens, clfBodyParams, bodyParamsRule, bodyCandLensRule, htr,
          isEmpty_false_of_ne_nil hm]
    · rw [htr] at h
      exact absurd h (by simp)

/-- C8 witness: on the form-encoded body `a=bb` both extractions yield
the candidate lengths `[2]`. -/
theorem c8_amended_form_branch_agrees_witness :
    (parse_qs (cleanOpt (some "a=bb".toList)) ≠ [] ∨ truthy (some "a=bb".toList) = false) ∧
      mlBodyLens (some "a=bb".toList) = .ok (bodyCandLensRule (some "a=bb".toList)) :=
  ⟨Or.inl (by decide), c8_amended_form_branch_agrees (some "a=bb".toList) (Or.inl (by decide))⟩

end WAF
